import Mathlib

/-!
Verification of the static-site build pipeline of the Mongoose Studio site
repository (`build.js`).  JavaScript strings are modelled as Lean `String`s
with structural operations on their underlying character lists so that every
definition is executable and kernel-reducible.  External collaborators
(`marked`, `Prism.highlight`, the `Date` formatting intrinsics) enter the
model as explicit function parameters; everything else is translated
directly from the source.
-/

namespace Studio

/-! ### Character/string primitives modelling the JavaScript string API -/

/-- The double-quote character `"`. -/
def quoteChar : Char := Char.ofNat 34

/-- The apostrophe character. -/
def aposChar : Char := Char.ofNat 39

/-- ASCII lowercasing of one character, modelling what
`String.prototype.toLowerCase` does on the ASCII range (the only range the
language tags of the build pipeline and file names use). -/
def lowerChar (c : Char) : Char :=
  if 65 ≤ c.toNat ∧ c.toNat ≤ 90 then Char.ofNat (c.toNat + 32) else c

/-- Models `s.toLowerCase()`. -/
def jsToLower (s : String) : String := ⟨s.data.map lowerChar⟩

/-- Models `s.endsWith(suf)`. -/
def jsEndsWith (s suf : String) : Bool := List.isSuffixOf suf.data s.data

/-- Models `s.startsWith(p)`. -/
def jsStartsWith (s p : String) : Bool := List.isPrefixOf p.data s.data

/-- Drop the last `n` characters of `s`. -/
def jsDropRight (s : String) (n : Nat) : String :=
  ⟨s.data.take (s.data.length - n)⟩

/-- Drop the first `n` characters of `s`. -/
def jsDrop (s : String) (n : Nat) : String := ⟨s.data.drop n⟩

/-! ### `escapeHtml` (build.js lines 335-342)

The JavaScript function is a chain of five global single-character
replacements, ampersand first:
first every ampersand becomes the entity amp, then every less-than
becomes lt, every greater-than becomes gt, every double quote becomes
quot, and every apostrophe becomes the numeric entity 39.
`replaceChar t r` is exactly one such global replacement pass for a
single-character target `t`. -/

/-- One global single-character replacement pass. -/
def replaceChar (t : Char) (r : List Char) : List Char → List Char
  | [] => []
  | c :: cs =>
    if c = t then r ++ replaceChar t r cs else c :: replaceChar t r cs

/-- The five replacement passes of `escapeHtml`, on character lists, in the
order of the source (ampersand first, then the other four). -/
def escapeList (l : List Char) : List Char :=
  replaceChar aposChar "&#39;".data
    (replaceChar quoteChar "&quot;".data
      (replaceChar '>' "&gt;".data
        (replaceChar '<' "&lt;".data
          (replaceChar '&' "&amp;".data l))))

/-- Function `escapeHtml` from build.js. -/
def escapeHtml (value : String) : String := ⟨escapeList value.data⟩

/-- Per-character view of the escaping: each of the five special characters
maps to its HTML entity, every other character to itself. -/
def escapeChar (c : Char) : List Char :=
  if c = '&' then "&amp;".data
  else if c = '<' then "&lt;".data
  else if c = '>' then "&gt;".data
  else if c = quoteChar then "&quot;".data
  else if c = aposChar then "&#39;".data
  else [c]

/-- Character-wise escaping of a whole list. -/
def escAll : List Char → List Char
  | [] => []
  | c :: cs => escapeChar c ++ escAll cs

/-- Decoder for the five entities produced by `escapeHtml` (the claimed
decoding of those five entities): scans left to right, replacing
`&amp;` `&lt;` `&gt;` `&quot;` `&#39;` by the character they stand for. -/
def decodeEntities (l : List Char) : List Char :=
  match l with
  | [] => []
  | c :: cs =>
    if c = '&' then
      if cs.take 4 = ['a', 'm', 'p', ';'] then '&' :: decodeEntities (cs.drop 4)
      else if cs.take 3 = ['l', 't', ';'] then '<' :: decodeEntities (cs.drop 3)
      else if cs.take 3 = ['g', 't', ';'] then '>' :: decodeEntities (cs.drop 3)
      else if cs.take 5 = ['q', 'u', 'o', 't', ';'] then
        quoteChar :: decodeEntities (cs.drop 5)
      else if cs.take 4 = ['#', '3', '9', ';'] then
        aposChar :: decodeEntities (cs.drop 4)
      else c :: decodeEntities cs
    else c :: decodeEntities cs
termination_by l.length
decreasing_by
  all_goals simp
  all_goals omega

theorem replaceChar_append (t : Char) (r a b : List Char) :
    replaceChar t r (a ++ b) = replaceChar t r a ++ replaceChar t r b := by
  induction a with
  | nil => simp [replaceChar]
  | cons c cs ih =>
    by_cases h : c = t <;> simp [replaceChar, h, ih]

theorem replaceChar_of_not_mem {t : Char} {r l : List Char} (h : t ∉ l) :
    replaceChar t r l = l := by
  induction l with
  | nil => rfl
  | cons c cs ih =>
    have hct : ¬ c = t := by
      intro e
      exact h (e ▸ List.mem_cons_self c cs)
    rw [replaceChar, if_neg hct]
    rw [ih (fun m => h (List.mem_cons_of_mem c m))]

theorem take_cons_ne {a b : Char} (hab : a ≠ b) (X R : List Char) (n : Nat) :
    ¬ ((a :: X).take (n + 1) = b :: R) := by
  intro h
  rw [List.take_succ_cons] at h
  injection h with h1 _
  exact absurd h1 hab

/-- The five-pass chain acts character by character. -/
theorem escapeList_cons (c : Char) (cs : List Char) :
    escapeList (c :: cs) = escapeChar c ++ escapeList cs := by
  by_cases h1 : c = '&'
  · subst h1
    unfold escapeList
    rw [show replaceChar '&' "&amp;".data ('&' :: cs) =
        "&amp;".data ++ replaceChar '&' "&amp;".data cs from by
      rw [replaceChar, if_pos rfl]]
    rw [replaceChar_append '<' "&lt;".data,
      replaceChar_of_not_mem (t := '<') (r := "&lt;".data) (by decide),
      replaceChar_append '>' "&gt;".data,
      replaceChar_of_not_mem (t := '>') (r := "&gt;".data) (by decide),
      replaceChar_append quoteChar "&quot;".data,
      replaceChar_of_not_mem (t := quoteChar) (r := "&quot;".data) (by decide),
      replaceChar_append aposChar "&#39;".data,
      replaceChar_of_not_mem (t := aposChar) (r := "&#39;".data) (by decide)]
    rfl
  · by_cases h2 : c = '<'
    · subst h2
      unfold escapeList
      rw [show replaceChar '&' "&amp;".data ('<' :: cs) =
          '<' :: replaceChar '&' "&amp;".data cs from by
        rw [replaceChar, if_neg (by decide)]]
      rw [show ∀ X, replaceChar '<' "&lt;".data ('<' :: X) =
          "&lt;".data ++ replaceChar '<' "&lt;".data X from fun X => by
        rw [replaceChar, if_pos rfl]]
      rw [replaceChar_append '>' "&gt;".data,
        replaceChar_of_not_mem (t := '>') (r := "&gt;".data) (by decide),
        replaceChar_append quoteChar "&quot;".data,
        replaceChar_of_not_mem (t := quoteChar) (r := "&quot;".data) (by decide),
        replaceChar_append aposChar "&#39;".data,
        replaceChar_of_not_mem (t := aposChar) (r := "&#39;".data) (by decide)]
      rfl
    · by_cases h3 : c = '>'
      · subst h3
        unfold escapeList
        rw [show replaceChar '&' "&amp;".data ('>' :: cs) =
            '>' :: replaceChar '&' "&amp;".data cs from by
          rw [replaceChar, if_neg (by decide)]]
        rw [show ∀ X, replaceChar '<' "&lt;".data ('>' :: X) =
            '>' :: replaceChar '<' "&lt;".data X from fun X => by
          rw [replaceChar, if_neg (by decide)]]
        rw [show ∀ X, replaceChar '>' "&gt;".data ('>' :: X) =
            "&gt;".data ++ replaceChar '>' "&gt;".data X from fun X => by
          rw [replaceChar, if_pos rfl]]
        rw [replaceChar_append quoteChar "&quot;".data,
          replaceChar_of_not_mem (t := quoteChar) (r := "&quot;".data) (by decide),
          replaceChar_append aposChar "&#39;".data,
          replaceChar_of_not_mem (t := aposChar) (r := "&#39;".data) (by decide)]
        rfl
      · by_cases h4 : c = quoteChar
        · subst h4
          unfold escapeList
          rw [show replaceChar '&' "&amp;".data (quoteChar :: cs) =
              quoteChar :: replaceChar '&' "&amp;".data cs from by
            rw [replaceChar, if_neg (by decide)]]
          rw [show ∀ X, replaceChar '<' "&lt;".data (quoteChar :: X) =
              quoteChar :: replaceChar '<' "&lt;".data X from fun X => by
            rw [replaceChar, if_neg (by decide)]]
          rw [show ∀ X, replaceChar '>' "&gt;".data (quoteChar :: X) =
              quoteChar :: replaceChar '>' "&gt;".data X from fun X => by
            rw [replaceChar, if_neg (by decide)]]
          rw [show ∀ X, replaceChar quoteChar "&quot;".data (quoteChar :: X) =
              "&quot;".data ++ replaceChar quoteChar "&quot;".data X from fun X => by
            rw [replaceChar, if_pos rfl]]
          rw [replaceChar_append aposChar "&#39;".data,
            replaceChar_of_not_mem (t := aposChar) (r := "&#39;".data) (by decide)]
          rfl
        · by_cases h5 : c = aposChar
          · subst h5
            unfold escapeList
            rw [show replaceChar '&' "&amp;".data (aposChar :: cs) =
                aposChar :: replaceChar '&' "&amp;".data cs from by
              rw [replaceChar, if_neg (by decide)]]
            rw [show ∀ X, replaceChar '<' "&lt;".data (aposChar :: X) =
                aposChar :: replaceChar '<' "&lt;".data X from fun X => by
              rw [replaceChar, if_neg (by decide)]]
            rw [show ∀ X, replaceChar '>' "&gt;".data (aposChar :: X) =
                aposChar :: replaceChar '>' "&gt;".data X from fun X => by
              rw [replaceChar, if_neg (by decide)]]
            rw [show ∀ X, replaceChar quoteChar "&quot;".data (aposChar :: X) =
                aposChar :: replaceChar quoteChar "&quot;".data X from fun X => by
              rw [replaceChar, if_neg (by decide)]]
            rw [show ∀ X, replaceChar aposChar "&#39;".data (aposChar :: X) =
                "&#39;".data ++ replaceChar aposChar "&#39;".data X from fun X => by
              rw [replaceChar, if_pos rfl]]
            rfl
          · unfold escapeList
            rw [show replaceChar '&' "&amp;".data (c :: cs) =
                c :: replaceChar '&' "&amp;".data cs from by
              rw [replaceChar, if_neg h1]]
            rw [show ∀ X, replaceChar '<' "&lt;".data (c :: X) =
                c :: replaceChar '<' "&lt;".data X from fun X => by
              rw [replaceChar, if_neg h2]]
            rw [show ∀ X, replaceChar '>' "&gt;".data (c :: X) =
                c :: replaceChar '>' "&gt;".data X from fun X => by
              rw [replaceChar, if_neg h3]]
            rw [show ∀ X, replaceChar quoteChar "&quot;".data (c :: X) =
                c :: replaceChar quoteChar "&quot;".data X from fun X => by
              rw [replaceChar, if_neg h4]]
            rw [show ∀ X, replaceChar aposChar "&#39;".data (c :: X) =
                c :: replaceChar aposChar "&#39;".data X from fun X => by
              rw [replaceChar, if_neg h5]]
            rw [show escapeChar c = [c] from by
              unfold escapeChar
              rw [if_neg h1, if_neg h2, if_neg h3, if_neg h4, if_neg h5]]
            rfl

theorem escapeList_eq_escAll (l : List Char) : escapeList l = escAll l := by
  induction l with
  | nil => rfl
  | cons c cs ih => rw [escapeList_cons, escAll, ih]

theorem decodeEntities_other {c : Char} (hc : c ≠ '&') (cs : List Char) :
    decodeEntities (c :: cs) = c :: decodeEntities cs := by
  rw [decodeEntities, if_neg hc]

theorem escapeChar_no_raw (c : Char) :
    ∀ d ∈ escapeChar c,
      d ≠ '<' ∧ d ≠ '>' ∧ d ≠ quoteChar ∧ d ≠ aposChar := by
  unfold escapeChar
  by_cases h1 : c = '&'
  · rw [if_pos h1]; decide
  · rw [if_neg h1]
    by_cases h2 : c = '<'
    · rw [if_pos h2]; decide
    · rw [if_neg h2]
      by_cases h3 : c = '>'
      · rw [if_pos h3]; decide
      · rw [if_neg h3]
        by_cases h4 : c = quoteChar
        · rw [if_pos h4]; decide
        · rw [if_neg h4]
          by_cases h5 : c = aposChar
          · rw [if_pos h5]; decide
          · rw [if_neg h5]
            intro d hd
            rcases List.mem_singleton.mp hd with rfl
            exact ⟨h2, h3, h4, h5⟩

theorem escAll_no_raw (l : List Char) :
    ∀ c ∈ escAll l, c ≠ '<' ∧ c ≠ '>' ∧ c ≠ quoteChar ∧ c ≠ aposChar := by
  induction l with
  | nil => intro c hc; cases hc
  | cons d ds ih =>
    intro c hc
    rw [escAll] at hc
    rcases List.mem_append.mp hc with h | h
    · exact escapeChar_no_raw d c h
    · exact ih c h

theorem decode_escAll (l : List Char) : decodeEntities (escAll l) = l := by
  induction l with
  | nil => rw [escAll, decodeEntities]
  | cons c cs ih =>
    rw [escAll]
    by_cases h1 : c = '&'
    · subst h1
      show decodeEntities ('&' :: 'a' :: 'm' :: 'p' :: ';' :: escAll cs) = _
      rw [decodeEntities, if_pos rfl,
        if_pos (show (('a' :: 'm' :: 'p' :: ';' :: escAll cs).take 4 =
          ['a', 'm', 'p', ';']) from rfl)]
      rw [show ('a' :: 'm' :: 'p' :: ';' :: escAll cs).drop 4 = escAll cs from rfl, ih]
    · by_cases h2 : c = '<'
      · subst h2
        show decodeEntities ('&' :: 'l' :: 't' :: ';' :: escAll cs) = _
        rw [decodeEntities, if_pos rfl, if_neg (take_cons_ne (by decide) _ _ _),
          if_pos (show (('l' :: 't' :: ';' :: escAll cs).take 3 =
            ['l', 't', ';']) from rfl)]
        rw [show ('l' :: 't' :: ';' :: escAll cs).drop 3 = escAll cs from rfl, ih]
      · by_cases h3 : c = '>'
        · subst h3
          show decodeEntities ('&' :: 'g' :: 't' :: ';' :: escAll cs) = _
          rw [decodeEntities, if_pos rfl, if_neg (take_cons_ne (by decide) _ _ _), if_neg (take_cons_ne (by decide) _ _ _),
            if_pos (show (('g' :: 't' :: ';' :: escAll cs).take 3 =
              ['g', 't', ';']) from rfl)]
          rw [show ('g' :: 't' :: ';' :: escAll cs).drop 3 = escAll cs from rfl, ih]
        · by_cases h4 : c = quoteChar
          · subst h4
            show decodeEntities
                ('&' :: 'q' :: 'u' :: 'o' :: 't' :: ';' :: escAll cs) = _
            rw [decodeEntities, if_pos rfl, if_neg (take_cons_ne (by decide) _ _ _), if_neg (take_cons_ne (by decide) _ _ _),
              if_neg (take_cons_ne (by decide) _ _ _),
              if_pos (show (('q' :: 'u' :: 'o' :: 't' :: ';' :: escAll cs).take 5 =
                ['q', 'u', 'o', 't', ';']) from rfl)]
            rw [show ('q' :: 'u' :: 'o' :: 't' :: ';' :: escAll cs).drop 5 =
              escAll cs from rfl, ih]
          · by_cases h5 : c = aposChar
            · subst h5
              show decodeEntities ('&' :: '#' :: '3' :: '9' :: ';' :: escAll cs) = _
              rw [decodeEntities, if_pos rfl, if_neg (take_cons_ne (by decide) _ _ _), if_neg (take_cons_ne (by decide) _ _ _),
                if_neg (take_cons_ne (by decide) _ _ _), if_neg (take_cons_ne (by decide) _ _ _),
                if_pos (show (('#' :: '3' :: '9' :: ';' :: escAll cs).take 4 =
                  ['#', '3', '9', ';']) from rfl)]
              rw [show ('#' :: '3' :: '9' :: ';' :: escAll cs).drop 4 =
                escAll cs from rfl, ih]
            · rw [show escapeChar c = [c] from by
                unfold escapeChar
                rw [if_neg h1, if_neg h2, if_neg h3, if_neg h4, if_neg h5]]
              rw [List.singleton_append, decodeEntities_other h1, ih]

/-- C10: For every input string `s`, `escapeHtml s` contains no raw
`<`, `>`, `"` or apostrophe; it is the character-wise replacement of each of
the five characters by its HTML entity (`escAll`); decoding the five
entities recovers `s` exactly; and the escaping is injective. -/
theorem escapeHtml_lossless (s : String) :
    (∀ c ∈ (escapeHtml s).data,
      c ≠ '<' ∧ c ≠ '>' ∧ c ≠ quoteChar ∧ c ≠ aposChar) ∧
    (escapeHtml s).data = escAll s.data ∧
    decodeEntities (escapeHtml s).data = s.data ∧
    (∀ t : String, escapeHtml s = escapeHtml t → s = t) := by
  have hd : ∀ u : String, (escapeHtml u).data = escAll u.data := fun u =>
    escapeList_eq_escAll u.data
  refine ⟨?_, hd s, ?_, ?_⟩
  · intro c hc
    rw [hd s] at hc
    exact escAll_no_raw s.data c hc
  · rw [hd s]; exact decode_escAll s.data
  · intro t het
    have h1 : escAll s.data = escAll t.data := by
      have h0 := congrArg String.data het
      rwa [hd s, hd t] at h0
    have h2 : s.data = t.data := by
      rw [← decode_escAll s.data, ← decode_escAll t.data, h1]
    cases s; cases t
    exact congrArg String.mk h2

/-- Closed witness for `escapeHtml_lossless` at a concrete input. -/
theorem escapeHtml_lossless_witness :
    decodeEntities (escapeHtml "a<b&c").data = "a<b&c".data ∧ "ok" = "ok" :=
  ⟨(escapeHtml_lossless "a<b&c").2.2.1,
    (escapeHtml_lossless "ok").2.2.2 "ok" rfl⟩

/-! ### Code-block rendering (build.js lines 11-35 and 248-264)

`Prism.highlight` is an external library call; it is modelled as an
explicit parameter `hl : String → String → Except String String`, the
`Except.error` outcome standing for a thrown exception. -/

/-- A truthy JavaScript value that the alias-map lookup can produce:
either an own-property string (the canonical language name) or a
non-string value inherited from `Object.prototype`, carried with its
template-literal string coercion. -/
inductive JsValue where
  | str (s : String)
  | obj (display : String)
deriving Repr, DecidableEq

/-- Template-literal string coercion of a lookup value, also used when the
value is coerced to a property key. -/
def jsValueStr : JsValue → String
  | .str s => s
  | .obj d => d

/-- The lookup `SUPPORTED_LANGUAGES[lang]` on the alias map of build.js
lines 11-16.  The map is a plain object literal, so besides its four own
properties it inherits every `Object.prototype` property.  The key is
always the output of `toLowerCase`, and exactly two inherited names are
all-lowercase: `constructor` (the `Object` constructor function, whose
string coercion is the native-function source text) and `__proto__`
(`Object.prototype`, coercing to the default object tag).  Every other
inherited name (hasOwnProperty, toString, valueOf, ...) contains an
uppercase letter and is unreachable. -/
def SUPPORTED_LANGUAGES (lang : String) : Option JsValue :=
  if lang = "js" then some (.str "javascript")
  else if lang = "javascript" then some (.str "javascript")
  else if lang = "ts" then some (.str "typescript")
  else if lang = "typescript" then some (.str "typescript")
  else if lang = "constructor" then
    some (.obj "function Object() \x7b [native code] \x7d")
  else if lang = "__proto__" then some (.obj "[object Object]")
  else none

/-- Strips one leading `language-` marker (the `language.replace`
call of the source with an anchored regular expression). -/
def stripLanguageTag (s : String) : String :=
  if jsStartsWith s "language-" then jsDrop s 9 else s

/-- Function `normalizeLanguage` from build.js lines 257-264.  The absent
info-string is modelled by `""` (both are falsy in `if (!language)`), and
`undefined || null` by `none` (the two play the same falsy role
downstream). -/
def normalizeLanguage (language : String) : Option JsValue :=
  if language = "" then none
  else SUPPORTED_LANGUAGES (stripLanguageTag (jsToLower language))

/-- Which grammars `Prism.languages` holds after the startup call
`loadLanguages` with javascript and typescript (Prism core also ships
markup, css, clike and javascript). -/
def prismGrammarLoaded (l : String) : Bool :=
  l = "javascript" || l = "typescript" || l = "markup" || l = "css" || l = "clike"

/-- Function `highlightCodeBlock` from build.js lines 248-255.  The source has
no try/catch: an exception from `Prism.highlight` propagates. -/
def highlightCodeBlock (hl : String → String → Except String String)
    (code : String) (language : Option String) : Except String String :=
  match language with
  | none => Except.ok (escapeHtml code)
  | some l =>
    if prismGrammarLoaded l then hl code l else Except.ok (escapeHtml code)

/-- The custom `renderer.code` from build.js lines 22-28.  Indexing
`Prism.languages[language]` coerces the lookup value to its property-key
string, and `highlightCodeBlock` otherwise only tests truthiness, so it
receives the coerced key; the class attribute interpolates the same
coercion. -/
def renderCode (hl : String → String → Except String String)
    (code infostring : String) : Except String String := do
  let language := normalizeLanguage infostring
  let highlighted ← highlightCodeBlock hl code (language.map jsValueStr)
  let className :=
    match language with
    | some v => " class=\"language-" ++ jsValueStr v ++ "\""
    | none => ""
  Except.ok ("<pre" ++ className ++ "><code" ++ className ++ ">" ++
    highlighted ++ "\n</code></pre>\n")

theorem string_append_assoc (a b c : String) : a ++ b ++ c = a ++ (b ++ c) := by
  cases a
  cases b
  cases c
  exact congrArg String.mk (List.append_assoc _ _ _)

theorem SUPPORTED_LANGUAGES_canon {x canon : String}
    (h : SUPPORTED_LANGUAGES x = some (.str canon)) :
    canon = "javascript" ∨ canon = "typescript" := by
  unfold SUPPORTED_LANGUAGES at h
  split_ifs at h <;> simp_all

theorem SUPPORTED_LANGUAGES_obj {x d : String}
    (h : SUPPORTED_LANGUAGES x = some (.obj d)) :
    d = "function Object() \x7b [native code] \x7d" ∨ d = "[object Object]" := by
  unfold SUPPORTED_LANGUAGES at h
  split_ifs at h <;> simp_all

/-- C3 counterexample: the claim says every info-string outside the four
aliases yields a wrapper with no class attribute, but for `constructor`
the lookup on the plain object literal resolves the inherited
`Object.prototype.constructor` — a truthy value — so the renderer emits a
classed wrapper, not the unclassed one the claim requires. -/
theorem renderCode_constructor_classed :
    stripLanguageTag (jsToLower "constructor") ∉
      (["js", "javascript", "ts", "typescript"] : List String)
    ∧ renderCode (fun c _ => Except.ok c) "x" "constructor" =
      Except.ok ("<pre class=\"language-function Object() \x7b [native code] \x7d\"><code class=\"language-function Object() \x7b [native code] \x7d\">x\n</code></pre>\n")
    ∧ ("<pre class=\"language-function Object() \x7b [native code] \x7d\"><code class=\"language-function Object() \x7b [native code] \x7d\">x\n</code></pre>\n" : String) ≠
      "<pre><code>" ++ escapeHtml "x" ++ "\n</code></pre>\n" :=
  ⟨by decide, rfl, by decide⟩

/-- C3 amended: a fenced block whose info-string, lowercased and with an
optional `language-` head stripped, is one of js/javascript/ts/typescript
renders as a pre/code pair classed `language-<canonical>` around the
markup of the highlighter; an info-string that is empty or misses the
alias map entirely renders as an unclassed pre/code pair around exactly
the HTML-escaped code; the two lowercase inherited `Object.prototype`
names (`constructor`, `__proto__`) hit a truthy non-string value, so they
render as a pre/code pair classed with the string coercion of that value,
again around exactly the HTML-escaped code (no such grammar is loaded). -/
theorem renderCode_language_classes
    (hl : String → String → Except String String) (code info : String) :
    (∀ canon, SUPPORTED_LANGUAGES (stripLanguageTag (jsToLower info)) =
        some (.str canon) →
      renderCode hl code info =
        Except.map (fun h =>
          "<pre" ++ (" class=\"language-" ++ canon ++ "\"") ++ "><code" ++
            (" class=\"language-" ++ canon ++ "\"") ++ ">" ++ h ++
            "\n</code></pre>\n") (hl code canon))
    ∧ ((info = "" ∨ SUPPORTED_LANGUAGES (stripLanguageTag (jsToLower info)) = none) →
      renderCode hl code info =
        Except.ok ("<pre><code>" ++ escapeHtml code ++ "\n</code></pre>\n"))
    ∧ (∀ d, SUPPORTED_LANGUAGES (stripLanguageTag (jsToLower info)) =
        some (.obj d) →
      renderCode hl code info =
        Except.ok ("<pre" ++ (" class=\"language-" ++ d ++ "\"") ++ "><code" ++
          (" class=\"language-" ++ d ++ "\"") ++ ">" ++ escapeHtml code ++
          "\n</code></pre>\n")) := by
  refine ⟨?_, ?_, ?_⟩
  · intro canon hsup
    by_cases hinfo : info = ""
    · subst hinfo
      exact absurd hsup (by intro h; exact Option.noConfusion h)
    · have hnorm : normalizeLanguage info = some (.str canon) := by
        unfold normalizeLanguage
        rw [if_neg hinfo]
        simpa using hsup
      have hloaded : prismGrammarLoaded canon = true := by
        rcases SUPPORTED_LANGUAGES_canon hsup with h | h <;> subst h <;> rfl
      unfold renderCode highlightCodeBlock
      rw [hnorm]
      cases hx : hl code canon <;>
        simp [hloaded, Except.map, Bind.bind, Except.bind, hx,
          string_append_assoc, jsValueStr]
  · intro hother
    have hnorm : normalizeLanguage info = none := by
      unfold normalizeLanguage
      rcases hother with h | h
      · rw [if_pos h]
      · by_cases hinfo : info = ""
        · rw [if_pos hinfo]
        · rw [if_neg hinfo]
          simpa using h
    unfold renderCode highlightCodeBlock
    rw [hnorm]
    simp [Bind.bind, Except.bind]
  · intro d hsup
    by_cases hinfo : info = ""
    · subst hinfo
      exact absurd hsup (by intro h; exact Option.noConfusion h)
    · have hnorm : normalizeLanguage info = some (.obj d) := by
        unfold normalizeLanguage
        rw [if_neg hinfo]
        simpa using hsup
      have hnl : prismGrammarLoaded d = false := by
        rcases SUPPORTED_LANGUAGES_obj hsup with h | h <;> subst h <;> rfl
      unfold renderCode highlightCodeBlock
      rw [hnorm]
      simp [hnl, Bind.bind, Except.bind, jsValueStr, string_append_assoc]

/-- Closed witness for `renderCode_language_classes`, covering all three
branches. -/
theorem renderCode_language_classes_witness :
    renderCode (fun c _ => Except.ok c) "x" "Language-TS" =
      Except.ok ("<pre class=\"language-typescript\"><code class=\"language-typescript\">x\n</code></pre>\n")
    ∧ renderCode (fun c _ => Except.ok c) "a<b" "ruby" =
      Except.ok ("<pre><code>" ++ escapeHtml "a<b" ++ "\n</code></pre>\n")
    ∧ renderCode (fun c _ => Except.ok c) "a" "__proto__" =
      Except.ok ("<pre class=\"language-[object Object]\"><code class=\"language-[object Object]\">a\n</code></pre>\n") :=
  ⟨((renderCode_language_classes (fun c _ => Except.ok c) "x" "Language-TS").1
      "typescript" rfl).trans rfl,
    (renderCode_language_classes (fun c _ => Except.ok c) "a<b" "ruby").2.1
      (Or.inr rfl),
    ((renderCode_language_classes (fun c _ => Except.ok c) "a" "__proto__").2.2
      "[object Object]" rfl).trans rfl⟩

/-- C6 counterexample: the claim says a highlighting error is replaced by
the escaped plain text; in the code `highlightCodeBlock` has no handler, so
with a loaded grammar the error of the highlighter is returned as-is. -/
theorem highlight_error_propagates :
    highlightCodeBlock (fun _ _ => Except.error "highlight failure") "x"
        ((normalizeLanguage "js").map jsValueStr) = Except.error "highlight failure"
    ∧ (Except.error "highlight failure" :
        Except String String) ≠ Except.ok (escapeHtml "x") :=
  ⟨rfl, fun h => Except.noConfusion h⟩

/-- C6 amended: the renderer falls back to HTML-escaped plain text
only when no language was recognized or its grammar is not loaded; when a
grammar is loaded it returns whatever the highlighter returns, including a
raised error, which therefore propagates. -/
theorem highlightCodeBlock_fallback
    (hl : String → String → Except String String) (code : String)
    (language : Option String) :
    ((language = none ∨
        ∃ l, language = some l ∧ prismGrammarLoaded l = false) →
      highlightCodeBlock hl code language = Except.ok (escapeHtml code))
    ∧ (∀ l, language = some l → prismGrammarLoaded l = true →
      highlightCodeBlock hl code language = hl code l) := by
  constructor
  · intro h
    rcases h with h | ⟨l, rfl, hl2⟩
    · subst h; rfl
    · simp [highlightCodeBlock, hl2]
  · intro l hl1 hl2
    subst hl1
    simp [highlightCodeBlock, hl2]

/-- Closed witness for `highlightCodeBlock_fallback`. -/
theorem highlightCodeBlock_fallback_witness :
    highlightCodeBlock (fun _ _ => Except.error "boom") "y" (some "ruby") =
      Except.ok (escapeHtml "y")
    ∧ highlightCodeBlock (fun _ _ => Except.error "boom") "y"
        (some "javascript") = Except.error "boom" :=
  ⟨(highlightCodeBlock_fallback _ "y" (some "ruby")).1
      (Or.inr ⟨"ruby", rfl, rfl⟩),
    (highlightCodeBlock_fallback (fun _ _ => Except.error "boom") "y"
        (some "javascript")).2 "javascript" rfl rfl⟩

/-! ### `publishedAt` resolution (build.js lines 99-110)

Front-matter `publishedAt` values are, per the documented interface, a
date string or a native date value (or absent).  A date is a millisecond
timestamp `Int`; `date none` models an Invalid Date object (`getTime()`
is NaN, but the object is still truthy).  `parse` models `new Date(s)` for
a non-empty string `s`, `none` meaning the string parses to an Invalid
Date. -/

inductive PublishedAtValue where
  | str (s : String)
  | date (ms : Option Int)

/-- The resolution logic of build.js lines 99-110: take the declared value
when truthy (`""` is falsy), parse a string through `new Date`, and fall
back to the `mtime` of the file when nothing was assigned or `getTime()` is
NaN. -/
def resolvePublishedAt (parse : String → Option Int)
    (declared : Option PublishedAtValue) (mtime : Int) : Int :=
  let publishedAt : Option (Option Int) :=
    match declared with
    | none => none
    | some (.str s) => if s = "" then none else some (parse s)
    | some (.date d) => some d
  match publishedAt with
  | some (some ms) => ms
  | some none => mtime
  | none => mtime

/-- C5: The resolved `publishedAt` is the declared front-matter value
whenever a declared date string or date value parses to a valid date, and
the last-modified timestamp of the file otherwise; in every case the result is a
well-defined timestamp that is either declared-and-valid or the mtime. -/
theorem resolvePublishedAt_spec (parse : String → Option Int)
    (declared : Option PublishedAtValue) (mtime : Int) :
    (∀ s ms, declared = some (.str s) → s ≠ "" → parse s = some ms →
      resolvePublishedAt parse declared mtime = ms)
    ∧ (∀ ms, declared = some (.date (some ms)) →
      resolvePublishedAt parse declared mtime = ms)
    ∧ ((declared = none ∨ declared = some (.str "") ∨
        (∃ s, declared = some (.str s) ∧ parse s = none) ∨
        declared = some (.date none)) →
      resolvePublishedAt parse declared mtime = mtime)
    ∧ (resolvePublishedAt parse declared mtime = mtime ∨
        (∃ ms, resolvePublishedAt parse declared mtime = ms ∧
          (declared = some (.date (some ms)) ∨
            ∃ s, declared = some (.str s) ∧ s ≠ "" ∧ parse s = some ms))) := by
  refine ⟨?_, ?_, ?_, ?_⟩
  · intro s ms hdecl hs hparse
    subst hdecl
    simp [resolvePublishedAt, hs, hparse]
  · intro ms hdecl
    subst hdecl
    simp [resolvePublishedAt]
  · intro h
    rcases h with h | h | ⟨s, h, hp⟩ | h
    · subst h; rfl
    · subst h; rfl
    · subst h
      by_cases hs : s = ""
      · subst hs; rfl
      · simp [resolvePublishedAt, hs, hp]
    · subst h; rfl
  · match declared with
    | none => exact Or.inl rfl
    | some (.date none) => exact Or.inl rfl
    | some (.date (some ms)) =>
      exact Or.inr ⟨ms, by simp [resolvePublishedAt], Or.inl rfl⟩
    | some (.str s) =>
      by_cases hs : s = ""
      · subst hs; exact Or.inl rfl
      · cases hp : parse s with
        | none => exact Or.inl (by simp [resolvePublishedAt, hs, hp])
        | some ms =>
          exact Or.inr ⟨ms, by simp [resolvePublishedAt, hs, hp],
            Or.inr ⟨s, rfl, hs, hp⟩⟩

/-- Closed witness for `resolvePublishedAt_spec`. -/
theorem resolvePublishedAt_spec_witness :
    resolvePublishedAt (fun _ => some 1700000000000)
      (some (.str "2023-11-14")) 5 = 1700000000000
    ∧ resolvePublishedAt (fun _ => none) (some (.str "garbage")) 5 = 5 :=
  ⟨(resolvePublishedAt_spec (fun _ => some 1700000000000)
      (some (.str "2023-11-14")) 5).1 "2023-11-14" 1700000000000 rfl
      (by decide) rfl,
    (resolvePublishedAt_spec (fun _ => none) (some (.str "garbage")) 5).2.2.1
      (Or.inr (Or.inr (Or.inl ⟨"garbage", rfl, rfl⟩)))⟩

/-! ### The template engine `applyTemplate` (build.js lines 367-397)

The cheerio document is modelled as the tuple of the mutable locations the
function touches: the `title` element text, the `data-slot` heading and
content slots, and the five social-preview meta-tag `content` attributes.
In cheerio, `.attr(name, value)` acts as a setter only when `value` is not
`undefined` (it is a getter otherwise), which is why the three unguarded
`.attr` calls at lines 392-394 leave the document unchanged when the
corresponding argument was not supplied.  The guarded branches use
JavaScript truthiness, so an empty string is also skipped there. -/

structure Meta where
  ogImage : Option String := none
  twitterImage : Option String := none
  twitterCard : Option String := none
deriving Repr, DecidableEq

structure TemplateDoc where
  title : String
  headingSlot : String
  contentSlot : String
  metaOgImage : String
  metaTwitterCard : String
  metaTwitterImage : String
  metaTwitterTitle : String
  metaTwitterDescription : String
deriving Repr, DecidableEq

/-- Function `applyTemplate` from build.js lines 367-397. -/
def applyTemplate (t : TemplateDoc)
    (pageTitle heading content description : Option String)
    (meta : Meta) : TemplateDoc :=
  let t1 := match pageTitle with
    | some s => if s = "" then t else { t with title := s }
    | none => t
  let t2 := match heading with
    | some s => if s = "" then t1 else { t1 with headingSlot := s }
    | none => t1
  let t3 := match content with
    | some s => if s = "" then t2 else { t2 with contentSlot := s }
    | none => t2
  let t4 := match meta.ogImage with
    | some s => if s = "" then t3 else { t3 with metaOgImage := s }
    | none => t3
  let t5 := match meta.twitterCard with
    | some s => if s = "" then t4 else { t4 with metaTwitterCard := s }
    | none => t4
  let t6 := match meta.twitterImage with
    | some s => { t5 with metaTwitterImage := s }
    | none => t5
  let t7 := match pageTitle with
    | some s => { t6 with metaTwitterTitle := s }
    | none => t6
  match description with
  | some s => { t7 with metaTwitterDescription := s }
  | none => t7

/-- C8: the engine `applyTemplate` only changes slots for which a value was
supplied: with content supplied and no heading, the heading slot is
untouched and the content slot becomes exactly the supplied content;
every slot or meta tag with no supplied value keeps the shipped
template value. -/
theorem applyTemplate_frame (t : TemplateDoc) (pt d : Option String)
    (m : Meta) (c : String) (hc : c ≠ "") :
    ((applyTemplate t pt none (some c) d m).headingSlot = t.headingSlot)
    ∧ ((applyTemplate t pt none (some c) d m).contentSlot = c)
    ∧ (pt = none → (applyTemplate t pt none (some c) d m).title = t.title
        ∧ (applyTemplate t pt none (some c) d m).metaTwitterTitle =
          t.metaTwitterTitle)
    ∧ (m.ogImage = none →
        (applyTemplate t pt none (some c) d m).metaOgImage = t.metaOgImage)
    ∧ (m.twitterCard = none →
        (applyTemplate t pt none (some c) d m).metaTwitterCard =
          t.metaTwitterCard)
    ∧ (m.twitterImage = none →
        (applyTemplate t pt none (some c) d m).metaTwitterImage =
          t.metaTwitterImage)
    ∧ (d = none →
        (applyTemplate t pt none (some c) d m).metaTwitterDescription =
          t.metaTwitterDescription) := by
  obtain ⟨og, tw, card⟩ := m
  cases pt <;> cases d <;> cases og <;> cases tw <;> cases card <;>
    refine ⟨?_, ?_, ?_, ?_, ?_, ?_, ?_⟩ <;>
    (try simp_all [applyTemplate, hc]) <;>
    (repeat' split) <;>
    (try simp_all)

/-- Closed witness for `applyTemplate_frame` at a concrete template. -/
theorem applyTemplate_frame_witness :
    ((applyTemplate ⟨"T", "H", "C", "o", "c", "i", "t", "d"⟩ none none
        (some "<p>X</p>") none {}).headingSlot = "H")
    ∧ ((applyTemplate ⟨"T", "H", "C", "o", "c", "i", "t", "d"⟩ none none
        (some "<p>X</p>") none {}).contentSlot = "<p>X</p>") :=
  ⟨(applyTemplate_frame ⟨"T", "H", "C", "o", "c", "i", "t", "d"⟩ none none {}
      "<p>X</p>" (by decide)).1,
    (applyTemplate_frame ⟨"T", "H", "C", "o", "c", "i", "t", "d"⟩ none none {}
      "<p>X</p>" (by decide)).2.1⟩

/-! ### Changelog entry ordering (build.js lines 123-128)

The call localeCompare on slugs with the en locale, numeric collation
and base sensitivity
is modelled as a natural-order comparison: a string is keyed as a token
list in which a maximal digit run becomes a numeric token compared by
value, and any other character becomes a character token compared by its
lowercased code point (base sensitivity); numeric tokens order before
character tokens. -/

def digitVal (c : Char) : Nat := c.toNat - 48

/-- Tokenization for the natural-order key.  The accumulator carries the
value of the digit run currently being read. -/
def tokenizeKey : Option Nat → List Char → List (Nat × Nat)
  | acc, [] =>
    (match acc with | some n => [(0, n)] | none => [])
  | acc, c :: cs =>
    if c.isDigit then tokenizeKey (some ((acc.getD 0) * 10 + digitVal c)) cs
    else
      (match acc with | some n => [(0, n)] | none => []) ++
        ((1, (lowerChar c).toNat) :: tokenizeKey none cs)

def slugKey (s : String) : List (Nat × Nat) := tokenizeKey none s.data

def cmpNat (a b : Nat) : Ordering :=
  if a < b then .lt else if b < a then .gt else .eq

def cmpTok (a b : Nat × Nat) : Ordering :=
  match cmpNat a.1 b.1 with
  | .eq => cmpNat a.2 b.2
  | o => o

def cmpKey : List (Nat × Nat) → List (Nat × Nat) → Ordering
  | [], [] => .eq
  | [], _ :: _ => .lt
  | _ :: _, [] => .gt
  | a :: as, b :: bs =>
    match cmpTok a b with
    | .eq => cmpKey as bs
    | o => o

def ordToInt : Ordering → Int
  | .lt => -1
  | .eq => 0
  | .gt => 1

/-- Model of the call localeCompare of x against y with the en locale,
numeric collation and base sensitivity. -/
def localeCompare (x y : String) : Int := ordToInt (cmpKey (slugKey x) (slugKey y))

/-- A constructed changelog entry (the object literal at build.js lines
112-121, with the front-matter spread represented by the keys the
pipeline reads). -/
structure Entry where
  slug : String
  displayVersion : String
  html : String
  summary : String
  description : Option String
  image : Option String
  publishedAt : Int
  publishedAtISO : String
  publishedAtLabel : String
deriving Repr, DecidableEq

/-- The sort comparator of build.js lines 123-128: descending by
`publishedAt`, ties broken by descending `localeCompare` on slugs. -/
def entryComparator (a b : Entry) : Int :=
  if a.publishedAt < b.publishedAt then 1
  else if b.publishedAt < a.publishedAt then -1
  else localeCompare b.slug a.slug

/-- Models `entries.sort(comparator)`: ECMAScript `Array.prototype.sort` is a
stable sort ascending in the comparator (stable since ES2019), i.e.
insertion sort. -/
def sortEntries (es : List Entry) : List Entry :=
  List.insertionSort (fun a b => entryComparator a b ≤ 0) es

theorem cmpNat_swap (a b : Nat) : cmpNat a b = (cmpNat b a).swap := by
  unfold cmpNat
  split_ifs <;> first | rfl | omega

theorem cmpNat_eq_iff {a b : Nat} : cmpNat a b = .eq ↔ a = b := by
  unfold cmpNat
  split_ifs <;> simp <;> omega

theorem cmpNat_lt_iff {a b : Nat} : cmpNat a b = .lt ↔ a < b := by
  unfold cmpNat
  split_ifs <;> simp <;> omega

theorem cmpNat_gt_iff {a b : Nat} : cmpNat a b = .gt ↔ b < a := by
  unfold cmpNat
  split_ifs <;> simp <;> omega

theorem cmpTok_eq_iff {a b : Nat × Nat} : cmpTok a b = .eq ↔ a = b := by
  unfold cmpTok
  cases h : cmpNat a.1 b.1 with
  | lt =>
    show Ordering.lt = .eq ↔ a = b
    constructor
    · intro e; cases e
    · intro e
      subst e
      have h2 : cmpNat a.1 a.1 = .eq := cmpNat_eq_iff.mpr rfl
      cases h2.symm.trans h
  | eq =>
    show cmpNat a.2 b.2 = .eq ↔ a = b
    rw [cmpNat_eq_iff]
    constructor
    · intro e
      exact Prod.ext (cmpNat_eq_iff.mp h) e
    · intro e; subst e; rfl
  | gt =>
    show Ordering.gt = .eq ↔ a = b
    constructor
    · intro e; cases e
    · intro e
      subst e
      have h2 : cmpNat a.1 a.1 = .eq := cmpNat_eq_iff.mpr rfl
      cases h2.symm.trans h

theorem cmpTok_swap (a b : Nat × Nat) : cmpTok a b = (cmpTok b a).swap := by
  unfold cmpTok
  rw [cmpNat_swap a.1 b.1, cmpNat_swap a.2 b.2]
  cases cmpNat b.1 a.1 <;> rfl

theorem cmpTok_lt_iff {a b : Nat × Nat} :
    cmpTok a b = .lt ↔ (a.1 < b.1 ∨ (a.1 = b.1 ∧ a.2 < b.2)) := by
  unfold cmpTok
  cases h : cmpNat a.1 b.1 with
  | lt =>
    show Ordering.lt = .lt ↔ _
    have h1 := cmpNat_lt_iff.mp h
    simp [h1]
  | eq =>
    show cmpNat a.2 b.2 = .lt ↔ _
    have h1 := cmpNat_eq_iff.mp h
    rw [cmpNat_lt_iff]
    constructor
    · intro e; exact Or.inr ⟨h1, e⟩
    · rintro (e | ⟨_, e⟩)
      · omega
      · exact e
  | gt =>
    show Ordering.gt = .lt ↔ _
    have h1 := cmpNat_gt_iff.mp h
    constructor
    · intro e; cases e
    · rintro (e | ⟨e, _⟩) <;> omega

theorem cmpKey_swap : ∀ (x y : List (Nat × Nat)), cmpKey x y = (cmpKey y x).swap
  | [], [] => rfl
  | [], _ :: _ => rfl
  | _ :: _, [] => rfl
  | a :: as, b :: bs => by
    show (match cmpTok a b with | .eq => cmpKey as bs | o => o) =
      (match cmpTok b a with | .eq => cmpKey bs as | o => o).swap
    rw [cmpTok_swap a b]
    cases cmpTok b a with
    | lt => rfl
    | gt => rfl
    | eq =>
      show cmpKey as bs = (cmpKey bs as).swap
      exact cmpKey_swap as bs

theorem cmpKey_eq_iff : ∀ {x y : List (Nat × Nat)}, cmpKey x y = .eq ↔ x = y
  | [], [] => by simp [cmpKey]
  | [], _ :: _ => by simp [cmpKey]
  | _ :: _, [] => by simp [cmpKey]
  | a :: as, b :: bs => by
    show (match cmpTok a b with | .eq => cmpKey as bs | o => o) = .eq ↔ _
    cases h : cmpTok a b with
    | lt =>
      show Ordering.lt = .eq ↔ _
      constructor
      · intro e; cases e
      · intro e
        injection e with e1 e2
        subst e1
        have h2 : cmpTok a a = .eq := cmpTok_eq_iff.mpr rfl
        cases h2.symm.trans h
    | eq =>
      show cmpKey as bs = .eq ↔ _
      rw [cmpKey_eq_iff]
      have hab := cmpTok_eq_iff.mp h
      subst hab
      simp
    | gt =>
      show Ordering.gt = .eq ↔ _
      constructor
      · intro e; cases e
      · intro e
        injection e with e1 e2
        subst e1
        have h2 : cmpTok a a = .eq := cmpTok_eq_iff.mpr rfl
        cases h2.symm.trans h

theorem cmpKey_lt_trans :
    ∀ (x y z : List (Nat × Nat)),
      cmpKey x y = .lt → cmpKey y z = .lt → cmpKey x z = .lt
  | [], [], _ => fun h _ => nomatch h
  | [], _ :: _, [] => fun _ h2 => nomatch h2
  | [], _ :: _, _ :: _ => fun _ _ => rfl
  | _ :: _, [], _ => fun h1 _ => nomatch h1
  | _ :: _, _ :: _, [] => fun _ h2 => nomatch h2
  | a :: as, b :: bs, c :: cs => by
    show (match cmpTok a b with | .eq => cmpKey as bs | o => o) = .lt →
      (match cmpTok b c with | .eq => cmpKey bs cs | o => o) = .lt →
      (match cmpTok a c with | .eq => cmpKey as cs | o => o) = .lt
    cases hab : cmpTok a b with
    | gt => intro h1; cases h1
    | eq =>
      have he := cmpTok_eq_iff.mp hab
      subst he
      cases hbc : cmpTok a c with
      | gt => intro _ h2; cases h2
      | lt => intro _ _; rfl
      | eq =>
        have he2 := cmpTok_eq_iff.mp hbc
        subst he2
        exact cmpKey_lt_trans as bs cs
    | lt =>
      cases hbc : cmpTok b c with
      | gt => intro _ h2; cases h2
      | eq =>
        have he := cmpTok_eq_iff.mp hbc
        subst he
        rw [hab]
        intro _ _; rfl
      | lt =>
        have hac : cmpTok a c = .lt := by
          rw [cmpTok_lt_iff] at hab hbc ⊢
          omega
        rw [hac]
        intro _ _; rfl

theorem cmpKey_le_trans {x y z : List (Nat × Nat)}
    (h1 : cmpKey x y ≠ .gt) (h2 : cmpKey y z ≠ .gt) : cmpKey x z ≠ .gt := by
  cases hxy : cmpKey x y with
  | gt => exact absurd hxy h1
  | eq =>
    have := cmpKey_eq_iff.mp hxy
    subst this
    exact h2
  | lt =>
    cases hyz : cmpKey y z with
    | gt => exact absurd hyz h2
    | eq =>
      have := cmpKey_eq_iff.mp hyz
      subst this
      rw [hxy]
      intro e; cases e
    | lt =>
      rw [cmpKey_lt_trans x y z hxy hyz]
      intro e; cases e

theorem ordToInt_le_zero_iff {o : Ordering} : ordToInt o ≤ 0 ↔ o ≠ .gt := by
  cases o <;> simp [ordToInt]

theorem entryComparator_le_iff {a b : Entry} :
    entryComparator a b ≤ 0 ↔
      (b.publishedAt < a.publishedAt ∨
        (a.publishedAt = b.publishedAt ∧
          cmpKey (slugKey b.slug) (slugKey a.slug) ≠ .gt)) := by
  unfold entryComparator localeCompare
  split_ifs with h1 h2
  · constructor
    · intro h; exact absurd h (by decide)
    · rintro (h | ⟨h, _⟩) <;> omega
  · constructor
    · intro _; exact Or.inl h2
    · intro _; decide
  · rw [ordToInt_le_zero_iff]
    constructor
    · intro h; exact Or.inr ⟨by omega, h⟩
    · rintro (h | ⟨_, h⟩)
      · omega
      · exact h

theorem entryLe_total (a b : Entry) :
    entryComparator a b ≤ 0 ∨ entryComparator b a ≤ 0 := by
  rw [entryComparator_le_iff, entryComparator_le_iff]
  rcases lt_trichotomy a.publishedAt b.publishedAt with h | h | h
  · exact Or.inr (Or.inl h)
  · by_cases hk : cmpKey (slugKey b.slug) (slugKey a.slug) = .gt
    · refine Or.inr (Or.inr ⟨h.symm, ?_⟩)
      rw [cmpKey_swap, hk]
      intro e; cases e
    · exact Or.inl (Or.inr ⟨h, hk⟩)
  · exact Or.inl (Or.inl h)

theorem entryLe_trans {a b c : Entry} (h1 : entryComparator a b ≤ 0)
    (h2 : entryComparator b c ≤ 0) : entryComparator a c ≤ 0 := by
  rw [entryComparator_le_iff] at h1 h2 ⊢
  rcases h1 with h1 | ⟨e1, k1⟩ <;> rcases h2 with h2 | ⟨e2, k2⟩
  · exact Or.inl (by omega)
  · exact Or.inl (by omega)
  · exact Or.inl (by omega)
  · exact Or.inr ⟨by omega, cmpKey_le_trans k2 k1⟩

/-- Concrete entries sharing a timestamp, for the claimed instance. -/
def entrySample (s : String) : Entry :=
  { slug := s, displayVersion := "v" ++ s, html := "", summary := "",
    description := none, image := none, publishedAt := 1000,
    publishedAtISO := "1970-01-01", publishedAtLabel := "Jan 01, 1970" }

/-- C4: The changelog sort orders entries descending by `publishedAt`,
breaking timestamp ties by the descending natural-order slug comparison;
the result is a permutation of the input, and on equal-timestamp slugs
`2.0.0`, `10.0.0`, `1.5.0` the order is `10.0.0`, `2.0.0`, `1.5.0`. -/
theorem changelog_sorted (es : List Entry) :
    (sortEntries es).Pairwise (fun a b =>
      b.publishedAt < a.publishedAt ∨
        (a.publishedAt = b.publishedAt ∧
          cmpKey (slugKey b.slug) (slugKey a.slug) ≠ Ordering.gt))
    ∧ (sortEntries es).Perm es
    ∧ (sortEntries [entrySample "2.0.0", entrySample "10.0.0",
        entrySample "1.5.0"]).map Entry.slug = ["10.0.0", "2.0.0", "1.5.0"] := by
  have hs : List.Sorted (fun a b => entryComparator a b ≤ 0) (sortEntries es) := by
    haveI : IsTotal Entry (fun a b => entryComparator a b ≤ 0) := ⟨entryLe_total⟩
    haveI : IsTrans Entry (fun a b => entryComparator a b ≤ 0) :=
      ⟨fun _ _ _ => entryLe_trans⟩
    exact List.sorted_insertionSort _ es
  refine ⟨?_, List.perm_insertionSort _ es, ?_⟩
  · exact List.Pairwise.imp (fun h => entryComparator_le_iff.mp h) hs
  · decide

/-! ### Line splitting, trimming and `extractFirstParagraph`
(build.js lines 325-333) -/

/-- Split a character list at each occurrence of `sep` (like
`String.prototype.split` with a single-character separator). -/
def splitChar (sep : Char) : List Char → List (List Char)
  | [] => [[]]
  | c :: cs =>
    if c = sep then [] :: splitChar sep cs
    else
      match splitChar sep cs with
      | p :: ps => (c :: p) :: ps
      | [] => [[c]]

/-- Drop one trailing carriage return. -/
def stripCR (l : List Char) : List Char :=
  match l.reverse with
  | c :: rest => if c = Char.ofNat 13 then rest.reverse else l
  | [] => l

/-- Apply `f` to every element except the last. -/
def mapInit (f : List Char → List Char) : List (List Char) → List (List Char)
  | [] => []
  | [x] => [x]
  | x :: y :: rest => f x :: mapInit f (y :: rest)

/-- Models the split of `markdown` at `\r?\n`: split at newlines, consuming one carriage
return immediately before each newline. -/
def splitLinesJs (s : String) : List String :=
  (mapInit stripCR (splitChar (Char.ofNat 10) s.data)).map String.mk

def isWsp (c : Char) : Bool :=
  c = ' ' || c.toNat = 9 || c.toNat = 10 || c.toNat = 13 ||
    c.toNat = 11 || c.toNat = 12

def trimL : List Char → List Char
  | [] => []
  | c :: cs => if isWsp c then trimL cs else c :: cs

/-- Models `s.trim()`. -/
def jsTrim (s : String) : String := ⟨(trimL ((trimL s.data).reverse)).reverse⟩

/-- Function `extractFirstParagraph` from build.js lines 325-333: the first trimmed
line that is non-empty and does not start with a heading marker, or `""`. -/
def extractFirstParagraph (markdown : String) : String :=
  let lines := (splitLinesJs markdown).map jsTrim
  match lines.find? (fun line =>
    if line = "" then false else ! jsStartsWith line "#") with
  | some l => l
  | none => ""

/-! ### Date formatting (build.js lines 344-365)

`Date.prototype.getMonth/getDate/getFullYear` depend on the process
time zone, so they enter as a parameter `decomp` mapping a timestamp to
`(monthIndex, dayOfMonth, year)`; `toISOString` enters as `isoOf`. -/

def months : List String :=
  ["Jan", "Feb", "Mar", "Apr", "May", "Jun",
    "Jul", "Aug", "Sep", "Oct", "Nov", "Dec"]

def natDigits : Nat → Nat → List Char
  | 0, _ => []
  | fuel + 1, n =>
    if n < 10 then [Char.ofNat (48 + n)]
    else natDigits fuel (n / 10) ++ [Char.ofNat (48 + n % 10)]

/-- Decimal rendering of a natural number (`String(n)`). -/
def natToString (n : Nat) : String := ⟨natDigits (n + 1) n⟩

/-- Models the padStart call applied to the day string. -/
def padTwo (s : String) : String := if s.data.length < 2 then "0" ++ s else s

/-- Function `formatDate` from build.js lines 344-365. -/
def formatDate (decomp : Int → Nat × Nat × Nat) (t : Int) : String :=
  (months.getD (decomp t).1 "") ++ " " ++
    padTwo (natToString (decomp t).2.1) ++ ", " ++ natToString (decomp t).2.2

/-! ### Changelog entry construction (build.js lines 84-122) -/

structure FrontMatter where
  title : Option String := none
  description : Option String := none
  image : Option String := none
  publishedAt : Option PublishedAtValue := none

/-- A Markdown file of the changelog directory, after the front-matter
parse: its directory-entry name, parsed metadata, Markdown body, and
on-disk modification time. -/
structure ChangelogFile where
  name : String
  fm : FrontMatter
  body : String
  mtime : Int

/-- The external collaborators of the build: `marked.parse`,
`new Date(string)` parsing, `toISOString`, and the local-time calendar
decomposition used by `formatDate`. -/
structure BuildEnv where
  render : String → String
  parse : String → Option Int
  isoOf : Int → String
  decomp : Int → Nat × Nat × Nat

/-- Models the basename call: strips one exact `.md` suffix. -/
def basenameNoMd (n : String) : String :=
  if jsEndsWith n ".md" then jsDropRight n 3 else n

/-- The entry object built in the `.map` callback, build.js lines 87-122. -/
def mkChangelogEntry (env : BuildEnv) (f : ChangelogFile) : Entry :=
  let slug := basenameNoMd f.name
  let publishedAt := resolvePublishedAt env.parse f.fm.publishedAt f.mtime
  { slug := slug
    displayVersion := if jsStartsWith slug "v" then slug else "v" ++ slug
    html := env.render f.body
    summary := extractFirstParagraph f.body
    description := f.fm.description
    image := f.fm.image
    publishedAt := publishedAt
    publishedAtISO := String.mk ((splitChar 'T' (env.isoOf publishedAt).data).headD [])
    publishedAtLabel := formatDate env.decomp publishedAt }

/-! ### Page shells (build.js lines 227-246, 266-306, 308-323, 399-405) -/

/-- Models `array.join(sep)`. -/
def joinSep (sep : String) : List String → String
  | [] => ""
  | [x] => x
  | x :: y :: rest => x ++ sep ++ joinSep sep (y :: rest)

/-- Function `renderEntryPage` from build.js lines 308-323 (fixed "Release Notes"
badge, `Mongoose Studio <displayVersion>` heading, date badge, body). -/
def renderEntryPage (entry : Entry) : String :=
  "\n    <section class=\"bg-white py-24 sm:py-32 dark:bg-gray-900\">\n      <div class=\"mx-auto max-w-4xl px-6 lg:px-8\">\n        <div class=\"flex flex-col gap-4 border-b border-gray-200 pb-10 dark:border-gray-700\">\n          <span class=\"text-sm font-medium uppercase tracking-wide text-red-berry-600\">Release Notes</span>\n          <h1 class=\"text-4xl font-semibold tracking-tight text-gray-900 sm:text-5xl dark:text-white\">Mongoose Studio " ++
    escapeHtml entry.displayVersion ++
    "</h1>\n          <time datetime=\"" ++ entry.publishedAtISO ++
    "\" class=\"text-sm text-gray-500 dark:text-gray-400\">Released " ++
    entry.publishedAtLabel ++
    "</time>\n        </div>\n        <article class=\"mt-12 space-y-6 text-base leading-relaxed text-slate-700 dark:text-gray-300\">\n          " ++
    entry.html ++
    "\n        </article>\n      </div>\n    </section>\n  "

/-- One `<article>` of the changelog index (the `.map` body of
`renderIndex`, build.js lines 268-289); an empty summary yields no teaser
paragraph. -/
def renderIndexArticle (entry : Entry) : String :=
  let summary :=
    if entry.summary = "" then ""
    else
      "<p class=\"mt-5 text-sm/6 text-gray-600 dark:text-gray-400\">" ++
        escapeHtml entry.summary ++ "</p>"
  "\n        <article class=\"flex max-w-xl flex-col items-start justify-between\">\n          <div class=\"flex items-center gap-x-4 text-xs\">\n            <time datetime=\"" ++
    entry.publishedAtISO ++
    "\" class=\"text-gray-500 dark:text-gray-400\">" ++
    entry.publishedAtLabel ++
    "</time>\n            <a href=\"/changelog/" ++ entry.slug ++
    ".html\" class=\"relative z-10 rounded-full bg-gray-50 px-3 py-1.5 font-medium text-gray-600 hover:bg-gray-100 dark:bg-gray-800/60 dark:text-gray-300 dark:hover:bg-gray-800\">Release</a>\n          </div>\n          <div class=\"group relative\">\n            <h3 class=\"mt-3 text-lg/6 font-semibold text-gray-900 group-hover:text-gray-600 dark:text-white dark:group-hover:text-gray-300\">\n              <a href=\"/changelog/" ++
    entry.slug ++
    ".html\">\n                <span class=\"absolute inset-0\"></span>\n                Mongoose Studio " ++
    escapeHtml entry.displayVersion ++
    "\n              </a>\n            </h3>\n            " ++ summary ++
    "\n          </div>\n        </article>\n      "

/-- Function `renderIndex` from build.js lines 266-306: the index page body listing
the entries in the given order. -/
def renderIndex (entries : List Entry) : String :=
  let articles := joinSep "\n" (entries.map renderIndexArticle)
  "\n    <div class=\"bg-white py-24 sm:py-32 dark:bg-gray-900\">\n      <div class=\"mx-auto max-w-7xl px-6 lg:px-8\">\n        <div class=\"mx-auto max-w-2xl\">\n          <h2 class=\"text-pretty text-4xl font-semibold tracking-tight text-gray-900 sm:text-5xl dark:text-white\">From the changelog</h2>\n          <p class=\"mt-2 text-lg/8 text-gray-600 dark:text-gray-300\">Follow along with the latest releases of Mongoose Studio.</p>\n          <div class=\"mt-10 space-y-16 border-t border-gray-200 pt-10 sm:mt-16 sm:pt-16 dark:border-gray-700\">\n            " ++
    articles ++
    "\n          </div>\n        </div>\n      </div>\n    </div>\n  "

/-- Function `renderDocPage` from build.js lines 227-246. -/
def renderDocPage (title description html : String) : String :=
  let descriptionHtml :=
    if description = "" then ""
    else
      "<p class=\"text-base text-gray-600 dark:text-gray-300\">" ++
        escapeHtml description ++ "</p>"
  "\n    <section class=\"bg-white py-24 sm:py-32 dark:bg-gray-900\">\n      <div class=\"mx-auto max-w-4xl px-6 lg:px-8\">\n        <div class=\"flex flex-col gap-4 border-b border-gray-200 pb-10 dark:border-gray-700\">\n          <span class=\"text-sm font-medium uppercase tracking-wide text-red-berry-600\">Documentation</span>\n          <h1 class=\"text-4xl font-semibold tracking-tight text-gray-900 sm:text-5xl dark:text-white\">" ++
    escapeHtml title ++
    "</h1>\n          " ++ descriptionHtml ++
    "\n        </div>\n        <article class=\"mt-12 space-y-6 text-base leading-relaxed text-slate-700 dark:text-gray-300\">\n          " ++
    html ++
    "\n        </article>\n      </div>\n    </section>\n  "

def defaultSocialImage : String :=
  "https://res.cloudinary.com/drfhhq8wu/image/upload/v1762288188/68af798b31f5a1432aaec547_lvw406.png"

/-- Function `resolveSocialImage` from build.js lines 399-405 (the empty string is falsy). -/
def resolveSocialImage (imagePath : Option String) : String :=
  match imagePath with
  | none => defaultSocialImage
  | some s => if s = "" then defaultSocialImage else s

/-! ### Content collection (build.js lines 209-225 and 84-86) -/

/-- A directory tree entry as reported by `readdirSync` with file types. -/
inductive FsEntry where
  | file (name : String)
  | dir (name : String) (children : List FsEntry)

/-- Function `collectMarkdownFiles` from build.js lines 209-225: recursive,
keeping regular files whose lowercased name ends in `.md`; paths are
relative to the root (`path.join`). -/
def collectMarkdownFiles : List FsEntry → List String
  | [] => []
  | .file n :: rest =>
    if jsEndsWith (jsToLower n) ".md" then n :: collectMarkdownFiles rest
    else collectMarkdownFiles rest
  | .dir n cs :: rest =>
    (collectMarkdownFiles cs).map (fun p => n ++ "/" ++ p) ++
      collectMarkdownFiles rest

/-- Every regular file of the tree, as (relative path, entry name), in the
same traversal order, with no filtering. -/
def allFilesWithName : List FsEntry → List (String × String)
  | [] => []
  | .file n :: rest => (n, n) :: allFilesWithName rest
  | .dir n cs :: rest =>
    (allFilesWithName cs).map (fun p => (n ++ "/" ++ p.1, p.2)) ++
      allFilesWithName rest

/-- The collection done by the changelog builder itself (build.js lines
84-86): readdirSync filtered by a call endsWith on the lowercase suffix
.md — a
case-sensitive suffix test on every directory entry name. -/
def changelogMarkdownNames (names : List String) : List String :=
  names.filter (fun file => jsEndsWith file ".md")

/-! ### The builders (build.js lines 69-153 and 155-207)

A builder is modelled as a function from the available inputs (layout and
source directory, each `Option` for presence) to the list of file writes
it performs, in order, paired with `some errorMessage` if it throws after
those writes (`none` if it completes). -/

/-- A changelog page write: output path (relative to the output dir) and
the rendered document. -/
structure PageWrite where
  path : String
  page : TemplateDoc
deriving Repr, DecidableEq

/-- A docs page write, tagged with the source file it came from. -/
structure DocWrite where
  src : String
  out : String
  page : TemplateDoc
deriving Repr, DecidableEq

/-- Run per-file steps in order, keeping the writes performed before the
first thrown error (a `forEach` that writes one file per iteration). -/
def runSteps {α : Type} : List (Except String α) → List α × Option String
  | [] => ([], none)
  | Except.ok w :: rest =>
    let r := runSteps rest
    (w :: r.1, r.2)
  | Except.error e :: _ => ([], some e)

/-- The `meta` object literal of the detail-page template call (build.js
line 136) reads the identifier `data`, which is not bound in the `forEach`
callback nor in any enclosing scope of `buildChangelog` (`data` is local
to the earlier `.map` callback); under strict mode evaluating it throws
a `ReferenceError`. -/
def changelogDetailMeta : Except String Meta :=
  Except.error "ReferenceError: data is not defined"

/-- One iteration of the detail-page `forEach` (build.js lines 130-143). -/
def writeChangelogEntry (layout : TemplateDoc) (entry : Entry) :
    Except String PageWrite := do
  let meta ← changelogDetailMeta
  Except.ok
    { path := entry.slug ++ ".html"
      page := applyTemplate layout
        (some ("Mongoose Studio Changelog - " ++ entry.displayVersion))
        none (some (renderEntryPage entry)) entry.description meta }

/-- Function `buildChangelog` from build.js lines 69-153.  The changelog directory
is `none` when absent, otherwise the parsed `.md`-and-other entries;
`layout` is `none` when `src/layout.html` is missing. -/
def buildChangelog (env : BuildEnv) (layout : Option TemplateDoc)
    (changelogDir : Option (List ChangelogFile)) :
    List PageWrite × Option String :=
  match changelogDir with
  | none => ([], none)
  | some files =>
    match layout with
    | none => ([], none)
    | some layout =>
      let entries := sortEntries
        ((files.filter (fun f => jsEndsWith f.name ".md")).map
          (mkChangelogEntry env))
      let r := runSteps (entries.map (writeChangelogEntry layout))
      match r.2 with
      | some e => (r.1, some e)
      | none =>
        (r.1 ++ [{ path := "index.html"
                   page := applyTemplate layout
                     (some "Mongoose Studio Changelog") none
                     (some (renderIndex entries)) none {} }], none)

/-- A docs source file after collection: path relative to the docs root,
front matter and body. -/
structure DocFile where
  relative : String
  fm : FrontMatter
  body : String

/-- Models the extension replacement on the relative path: swap a case-insensitive
`.md` suffix for `.html`. -/
def docOutputPath (relative : String) : String :=
  if jsEndsWith (jsToLower relative) ".md" then jsDropRight relative 3 ++ ".html"
  else relative

/-- One iteration of the docs `forEach` (build.js lines 172-204): throw
when `title` is falsy, else render and write the page. -/
def writeDocPage (env : BuildEnv) (layout : TemplateDoc) (f : DocFile) :
    Except String DocWrite :=
  match f.fm.title with
  | none =>
    Except.error ("Missing required frontmatter property \"title\" in " ++
      f.relative)
  | some title =>
    if title = "" then
      Except.error ("Missing required frontmatter property \"title\" in " ++
        f.relative)
    else
      let description := (f.fm.description).getD ""
      let socialImage := resolveSocialImage f.fm.image
      let meta : Meta :=
        { ogImage := some socialImage, twitterImage := some socialImage,
          twitterCard := some "summary_large_image" }
      Except.ok
        { src := f.relative
          out := docOutputPath f.relative
          page := applyTemplate layout
            (some (title ++ " - Mongoose Studio Documentation")) none
            (some (renderDocPage title description (env.render f.body)))
            (some description) meta }

/-- Function `buildDocs` from build.js lines 155-207. -/
def buildDocs (env : BuildEnv) (layout : Option TemplateDoc)
    (docsDir : Option (List DocFile)) : List DocWrite × Option String :=
  match docsDir with
  | none => ([], none)
  | some files =>
    match layout with
    | none => ([], none)
    | some layout => runSteps (files.map (writeDocPage env layout))

/-! ### Theorems about collection, the builders and their failure modes -/

/-- C9 counterexample: the collection of the changelog builder is
case-sensitive, so the regular file `X.MD` — which ends in the Markdown
extension compared case-insensitively — is not collected there, while the
docs collector does include it. -/
theorem changelog_collection_misses_uppercase :
    changelogMarkdownNames ["X.MD"] = []
    ∧ jsEndsWith (jsToLower "X.MD") ".md" = true
    ∧ collectMarkdownFiles [FsEntry.file "X.MD"] = ["X.MD"] := by
  refine ⟨by decide, by decide, ?_⟩
  have h : jsEndsWith (jsToLower "X.MD") ".md" = true := by decide
  simp [collectMarkdownFiles, h]

/-- C9 (amended): the docs collector returns exactly the regular files, in
traversal order, whose name ends in `.md` case-insensitively; the
changelog builder instead keeps exactly the directory-entry names ending
in the exact lowercase suffix `.md`. -/
theorem markdownCollection_spec (es : List FsEntry) (names : List String) :
    collectMarkdownFiles es =
      ((allFilesWithName es).filter
        (fun p => jsEndsWith (jsToLower p.2) ".md")).map Prod.fst
    ∧ changelogMarkdownNames names =
        names.filter (fun n => jsEndsWith n ".md")
    ∧ changelogMarkdownNames ["X.MD", "notes.txt", "x.md"] = ["x.md"]
    ∧ collectMarkdownFiles [.dir "guide" [.file "X.MD"], .file "b.txt"] =
        ["guide/X.MD"] := by
  have h1 : jsEndsWith (jsToLower "X.MD") ".md" = true := by decide
  have h2 : jsEndsWith (jsToLower "b.txt") ".md" = false := by decide
  refine ⟨?_, rfl, by decide, by simp [collectMarkdownFiles, h1, h2]⟩
  induction es using collectMarkdownFiles.induct with
  | case1 => simp [collectMarkdownFiles, allFilesWithName]
  | case2 n rest h ih =>
    simp [collectMarkdownFiles, allFilesWithName, h, ih]
  | case3 n rest h ih =>
    simp [collectMarkdownFiles, allFilesWithName, h, ih]
  | case4 n cs rest ih1 ih2 =>
    simp [collectMarkdownFiles, allFilesWithName, ih1, ih2, List.filter_map,
      List.map_map, List.filter_append]
    rfl

/-- C7: a missing changelog directory, docs directory, or shared layout
makes the corresponding builder return with no writes and no error (the
logging side effect is outside the model). -/
theorem missing_sources_noop (env : BuildEnv) (layout : TemplateDoc)
    (changelog : List ChangelogFile) (docs : List DocFile) :
    buildChangelog env (some layout) none = ([], none)
    ∧ buildChangelog env none (some changelog) = ([], none)
    ∧ buildChangelog env none none = ([], none)
    ∧ buildDocs env (some layout) none = ([], none)
    ∧ buildDocs env none (some docs) = ([], none)
    ∧ buildDocs env none none = ([], none) :=
  ⟨rfl, rfl, rfl, rfl, rfl, rfl⟩

theorem writeDocPage_ok (env : BuildEnv) (layout : TemplateDoc)
    {g : DocFile} {t : String} (ht : g.fm.title = some t) (hne : t ≠ "") :
    ∃ w, writeDocPage env layout g = Except.ok w ∧ w.src = g.relative := by
  simp only [writeDocPage, ht]
  rw [if_neg hne]
  exact ⟨_, rfl, rfl⟩

theorem writeDocPage_missing (env : BuildEnv) (layout : TemplateDoc)
    {f : DocFile} (hf : f.fm.title = none) :
    writeDocPage env layout f =
      Except.error ("Missing required frontmatter property \"title\" in " ++
        f.relative) := by
  simp only [writeDocPage, hf]

/-- C2: when a docs source file has no `title` in its front matter (and
every file collected before it does), the docs build fails with an error
naming the path of that file relative to the docs root, and no write for that
file is performed (files with distinct relative paths). -/
theorem buildDocs_missing_title (env : BuildEnv) (layout : TemplateDoc)
    (pre post : List DocFile) (f : DocFile)
    (hf : f.fm.title = none)
    (hpre : ∀ g ∈ pre, ∃ t, g.fm.title = some t ∧ t ≠ "")
    (hdist : ∀ g ∈ pre, g.relative ≠ f.relative) :
    (buildDocs env (some layout) (some (pre ++ f :: post))).2 =
      some ("Missing required frontmatter property \"title\" in " ++
        f.relative)
    ∧ ∀ w ∈ (buildDocs env (some layout) (some (pre ++ f :: post))).1,
        w.src ≠ f.relative := by
  have expand : ∀ fs : List DocFile,
      buildDocs env (some layout) (some fs) =
        runSteps (fs.map (writeDocPage env layout)) := fun _ => rfl
  induction pre with
  | nil =>
    rw [expand]
    have hstep := writeDocPage_missing env layout hf
    constructor
    · simp [runSteps, hstep]
    · intro w hw
      simp [runSteps, hstep] at hw
  | cons g gs ih =>
    obtain ⟨t, ht, hne⟩ := hpre g (List.mem_cons_self g gs)
    obtain ⟨w0, hw0, hsrc⟩ := writeDocPage_ok env layout ht hne
    have ihh := ih
      (fun g' hg' => hpre g' (List.mem_cons_of_mem g hg'))
      (fun g' hg' => hdist g' (List.mem_cons_of_mem g hg'))
    rw [expand] at ihh ⊢
    have hmap : ((g :: gs) ++ f :: post).map (writeDocPage env layout) =
        Except.ok w0 :: (gs ++ f :: post).map (writeDocPage env layout) := by
      simp [hw0]
    rw [hmap]
    constructor
    · show (runSteps (Except.ok w0 :: _)).2 = _
      rw [runSteps]
      exact ihh.1
    · intro w hw
      rw [runSteps] at hw
      rcases List.mem_cons.mp hw with rfl | hw
      · rw [hsrc]
        exact hdist g (List.mem_cons_self g gs)
      · exact ihh.2 w hw

def sampleEnv : BuildEnv :=
  { render := fun s => s, parse := fun _ => none,
    isoOf := fun _ => "1970-01-01T00:00:00.000Z",
    decomp := fun _ => (0, 1, 1970) }

def sampleLayout : TemplateDoc := ⟨"T", "H", "C", "o", "c", "i", "t", "d"⟩

def docSampleGood : DocFile :=
  { relative := "guide/a.md", fm := { title := some "A" }, body := "" }

def docSampleBad : DocFile :=
  { relative := "guide/b.md", fm := {}, body := "" }

/-- Closed witness for `buildDocs_missing_title`. -/
theorem buildDocs_missing_title_witness :
    (buildDocs sampleEnv (some sampleLayout)
        (some [docSampleGood, docSampleBad])).2 =
      some ("Missing required frontmatter property \"title\" in " ++
        "guide/b.md") :=
  (buildDocs_missing_title sampleEnv sampleLayout [docSampleGood] []
    docSampleBad rfl
    (by
      intro g hg
      rcases List.mem_singleton.mp hg with rfl
      exact ⟨"A", rfl, by decide⟩)
    (by
      intro g hg
      rcases List.mem_singleton.mp hg with rfl
      decide)).1

/-- C1: evaluated on a changelog directory holding one Markdown entry, the
build throws `ReferenceError: data is not defined` (the `meta` literal at
build.js line 136 reads `data`, which is local to the earlier `.map`
callback) before any changelog page is written, instead of writing the
claimed N+1 = 2 files. -/
theorem buildChangelog_reference_error :
    buildChangelog sampleEnv (some sampleLayout)
      (some [{ name := "1.0.0.md", fm := {}, body := "First release.",
               mtime := 0 }]) =
      ([], some "ReferenceError: data is not defined") := by
  decide

end Studio

